import Mathlib

/-!
Verification development for the release-orchestration and maintenance-branch
planning scripts of the systemcraft-stack-npmlib repository.

The JavaScript sources are shallowly embedded as pure Lean functions.
External effects (shell commands, filesystem, git) are modelled explicitly:
a shell is a function from a command string to `Except` (exception or stdout),
the filesystem is a record of `existsSync` / `readdirSync` / `readFileSync`
functions over path strings (paths joined with `/`), and side-effecting runs
produce an explicit trace of events.  `JSON.parse` is passed in as an oracle
`String → Except String _` wherever a claim depends on parse failures;
where a claim does not, parsed data is taken directly as input.
-/

namespace Spec2Proof

/-! ## JavaScript-style string helpers -/

/-- Splitting on a single separator character (JavaScript
`s.split(sep)` for a one-character separator).  `cur` is the reversed
current segment. -/
def splitOnCharAux (sep : Char) : List Char → List Char → List (List Char)
  | [], cur => [cur.reverse]
  | c :: t, cur =>
    if c = sep then cur.reverse :: splitOnCharAux sep t []
    else splitOnCharAux sep t (c :: cur)

def splitOnChar (sep : Char) (s : String) : List String :=
  (splitOnCharAux sep s.toList []).map String.mk

/-- `s.endsWith(suffix)` -/
def jsEndsWith (s suffix : String) : Bool := suffix.toList.isSuffixOf s.toList

/-- `s.startsWith(pre)` -/
def jsStartsWith (s p : String) : Bool := p.toList.isPrefixOf s.toList

/-- `content.split('\n')` -/
def jsLines (s : String) : List String := splitOnChar '\n' s

/-- `s.split('\n').filter(Boolean)`: the non-empty lines. -/
def nonemptyLines (s : String) : List String :=
  (splitOnChar '\n' s).filter (fun x => x ≠ "")

/-- ASCII whitespace as matched by the JavaScript regex class `\s`
(inputs of interest are ASCII). -/
def isJsSpace (c : Char) : Bool :=
  c = ' ' || c = '\t' || c = '\n' || c = '\r' || c = '\x0b' || c = '\x0c'

/-- `s.trim()` -/
def jsTrim (s : String) : String :=
  String.mk (((s.toList.dropWhile isJsSpace).reverse.dropWhile isJsSpace).reverse)

/-- Substring test on character lists (JavaScript `String.includes`). -/
def containsSeq (pat : List Char) : List Char → Bool
  | [] => pat.isPrefixOf []
  | c :: t => pat.isPrefixOf (c :: t) || containsSeq pat t

/-- `a.includes(b)` for strings. -/
def jsIncludes (s pat : String) : Bool := containsSeq pat.toList s.toList

/-! ## ChangesetStore: major-bump extraction
Source: `.github/scripts/utils/utils.js` `extractMajorBumpPackagesFromChangesets`
(lines 71–88), identical to `PackageUtil.extractMajorBumpPackagesFromChangesets`
in `.github/scripts/utils/package.util.js` (lines 104–121). -/

/-- One pending change-descriptor file. -/
structure ChangesetFile where
  filename : String
  content : String
deriving DecidableEq, Repr

/-- The characters of the guard substring `": major"` from
`line.includes(': major')`. -/
def colonSpaceMajor : List Char := [':', ' ', 'm', 'a', 'j', 'o', 'r']

/-- The tail `\s*:\s*major` of the regex: optional whitespace, a colon,
optional whitespace, then the literal `major`.  Deterministic because each
`\s*` is a maximal whitespace run followed by a non-whitespace literal. -/
def wsColonWsMajor (l : List Char) : Bool :=
  match l.dropWhile isJsSpace with
  | ':' :: r => ['m', 'a', 'j', 'o', 'r'].isPrefixOf (r.dropWhile isJsSpace)
  | _ => false

/-- Attempt of the regex `"([^"]+)"\s*:\s*major` anchored at the current
position.  The pattern is deterministic: `[^"]+` is a maximal run of
non-quote characters that must be followed by `"`. -/
def quotedMajorAt (l : List Char) : Option (List Char) :=
  match l with
  | [] => none
  | c :: rest =>
    if c = '"' then
      match rest.takeWhile (fun d => d ≠ '"'), rest.dropWhile (fun d => d ≠ '"') with
      | [], _ => none
      | c2 :: m, '"' :: after =>
        if wsColonWsMajor after then some (c2 :: m) else none
      | _, _ => none
    else none

/-- Leftmost match of the regex (JavaScript `line.match(...)` without the
global flag returns only the first match). -/
def firstQuotedMajor : List Char → Option (List Char)
  | [] => none
  | c :: t =>
    match quotedMajorAt (c :: t) with
    | some n => some n
    | none => firstQuotedMajor t

/-- What a single line contributes to the major-bump set:
`if (line.includes(': major')) { const match = line.match(/"([^\"]+)"\s*:\s*major/); ... }`. -/
def lineContributes (line : String) : Option String :=
  if containsSeq colonSpaceMajor line.toList then
    (firstQuotedMajor line.toList).map (fun n => String.mk n)
  else
    none

/-- `Set.add`: append if not already present (JavaScript `Set` keeps
insertion order and uniqueness). -/
def addUnique (acc : List String) (n : String) : List String :=
  if n ∈ acc then acc else acc ++ [n]

def extractLineFold (acc : List String) (line : String) : List String :=
  match lineContributes line with
  | some n => addUnique acc n
  | none => acc

/-- `extractMajorBumpPackagesFromChangesets(changesetFiles)`: scan each file
line by line, collecting the first double-quoted key of every line that
contains `": major"` and matches the regex. -/
def extractMajorBumpPackagesFromChangesets (files : List ChangesetFile) : List String :=
  files.foldl (fun acc f => (jsLines f.content).foldl extractLineFold acc) []

/-! ### Specification-side characterisation of a quoted-major occurrence
(used to state the amended C5; written from the spec sentence, not from the
scanner): the line contains, at some position, `"name"` followed by
optional whitespace, a colon, optional whitespace, and `major`. -/

/-- The double-quoted key `"n"` sits at the head of `l` and is followed by
`\s*:\s*major`. -/
def quotedKeyMajorHereB (n l : List Char) : Bool :=
  (('"' :: n ++ ['"']).isPrefixOf l) && wsColonWsMajor (l.drop (n.length + 2))

/-- `n` occurs somewhere in the line as a double-quoted key followed by
`\s*:\s*major`. -/
def specOccursB (n : List Char) : List Char → Bool
  | [] => false
  | c :: t => quotedKeyMajorHereB n (c :: t) || specOccursB n t

/-! ## GitFacade: changed files since the last commit
Source: `.github/scripts/utils/utils.js` `getChangedFiles` (lines 112–142),
identical to `GitUtil.getChangedFiles` in `.github/scripts/utils/git.util.js`
(lines 6–32).  The shell is a function from the command string to
`Except` — `.error` models the command raising.  The result pairs the list
of commands actually attempted (the call trace) with the returned files. -/

def gcfCmd1 : String := "git diff --name-only HEAD~1..HEAD"
def gcfCmd2 : String := "git diff --name-only HEAD^..HEAD"

/-- The second loop iteration of `getChangedFiles`: try `gcfCmd2`; a raise
or an empty file list falls through to `return []`. -/
def getChangedFilesSnd (shell : String → Except String String) :
    List String × List String :=
  match shell gcfCmd2 with
  | .ok out =>
    let files := nonemptyLines out
    if files.length > 0 then ([gcfCmd1, gcfCmd2], files)
    else ([gcfCmd1, gcfCmd2], [])
  | .error _ => ([gcfCmd1, gcfCmd2], [])

/-- `getChangedFiles`: try the two diff strategies in order inside
try/catch; return the first non-empty file list, else `[]`.  The function
is total — no exception escapes (the source catches each strategy's error
and falls through). -/
def getChangedFiles (shell : String → Except String String) :
    List String × List String :=
  match shell gcfCmd1 with
  | .ok out =>
    let files := nonemptyLines out
    if files.length > 0 then ([gcfCmd1], files)
    else getChangedFilesSnd shell
  | .error _ => getChangedFilesSnd shell

/-! ## GitFacade: changed files between refs
Source: `.github/scripts/utils/git.util.js` `GitUtil.getChangedFilesBetweenRefs`
(lines 47–104).  Each strategy guards on its parameters being truthy
(the empty string models a missing/empty ref), catches its own shell
exception and returns `""` in that case.  The loop body reads
`strategies[i]()` (the text extraction of the source dropped the brackets).
JavaScript falsy strings collapse to `""` here. -/

def gcbrCmd1 (baseRef headRef : String) : String :=
  "git diff --name-only origin/" ++ baseRef ++ "...origin/" ++ headRef
def gcbrCmd2 (baseSha headSha : String) : String :=
  "git diff --name-only " ++ baseSha ++ "..." ++ headSha
def gcbrCmd3 (baseSha headSha : String) : String :=
  "git diff --name-only " ++ baseSha ++ ".." ++ headSha
def gcbrCmd4 (baseRef : String) : String :=
  "git diff --name-only origin/" ++ baseRef ++ "...HEAD"

/-- Strategy 1: remote-branch three-dot diff; `''` when `headRef` is falsy
or the command raises. -/
def stratOut1 (shell : String → Except String String) (baseRef headRef : String) : String :=
  if headRef = "" then ""
  else match shell (gcbrCmd1 baseRef headRef) with
    | .ok o => o
    | .error _ => ""

/-- Strategy 2: SHA three-dot diff. -/
def stratOut2 (shell : String → Except String String) (baseSha headSha : String) : String :=
  if baseSha = "" || headSha = "" then ""
  else match shell (gcbrCmd2 baseSha headSha) with
    | .ok o => o
    | .error _ => ""

/-- Strategy 3: SHA two-dot diff. -/
def stratOut3 (shell : String → Except String String) (baseSha headSha : String) : String :=
  if baseSha = "" || headSha = "" then ""
  else match shell (gcbrCmd3 baseSha headSha) with
    | .ok o => o
    | .error _ => ""

/-- Strategy 4: base branch to HEAD. -/
def stratOut4 (shell : String → Except String String) (baseRef : String) : String :=
  match shell (gcbrCmd4 baseRef) with
  | .ok o => o
  | .error _ => ""

/-- `result.trim().split('\n').filter(Boolean)` -/
def toFiles (s : String) : List String :=
  (splitOnChar '\n' (jsTrim s)).filter (fun x => x ≠ "")

def noStrategyMsg : String := "Could not get changed files with any method"

/-- `getChangedFilesBetweenRefs(baseRef, headRef, baseSha, headSha)`:
first strategy whose output has non-blank trim wins; raises only when all
four produce blank output. -/
def getChangedFilesBetweenRefs (shell : String → Except String String)
    (baseRef headRef baseSha headSha : String) : Except String (List String) :=
  match [stratOut1 shell baseRef headRef, stratOut2 shell baseSha headSha,
         stratOut3 shell baseSha headSha, stratOut4 shell baseRef].find?
        (fun o => jsTrim o ≠ "") with
  | some o => .ok (toFiles o)
  | none => .error noStrategyMsg

/-! ## Filesystem, package resolution and the maintenance planners
Sources: `.github/scripts/utils/utils.js` `getPackageInfo` (lines 38–53,
identical in `package.util.js`), `loadChangesetFiles` (lines 55–69), the
version script planner `planMaintenanceBranches` (part_003 lines 23–54)
and `VersionService.generateMaintenancePlan`
(`.github/scripts/release/services/version.service.js` lines 29–45). -/

/-- Synchronous filesystem API as used by the scripts. -/
structure FsApi where
  existsSync : String → Bool
  readdirSync : String → List String
  readFileSync : String → String

/-- `path.resolve`/`path.join` modelled as `/`-joining (the scripts only
ever build paths downward from `baseDir`). -/
def pathJoin (parts : List String) : String := String.intercalate "/" parts

/-- `loadChangesetFiles(fsApi, baseDir)`: list `.changeset/*.md` except
`README.md`, with contents. -/
def loadChangesetFiles (fs : FsApi) (baseDir : String) : List ChangesetFile :=
  let dir := pathJoin [baseDir, ".changeset"]
  if fs.existsSync dir then
    ((fs.readdirSync dir).filter (fun f => jsEndsWith f ".md" && f ≠ "README.md")).map
      (fun f => ⟨f, fs.readFileSync (pathJoin [dir, f])⟩)
  else []

/-- `getMajorBumpPackages(fsApi, baseDir)` (part_003 lines 13–20). -/
def getMajorBumpPackages (fs : FsApi) (baseDir : String) : List String :=
  let files := loadChangesetFiles fs baseDir
  if files.length = 0 then []
  else extractMajorBumpPackagesFromChangesets files

/-- The parsed fields of a package manifest the scripts read. -/
structure PkgManifest where
  version : String
deriving DecidableEq, Repr

structure PkgInfo where
  version : String
  dirName : String
deriving DecidableEq, Repr

/-- `packageName.split('/').pop()` -/
def jsLastSeg (s : String) : String := (splitOnChar '/' s).getLastD ""

/-- The manifest path `path.resolve(baseDir, 'packages', dirName, 'package.json')`. -/
def manifestPath (packageName baseDir : String) : String :=
  pathJoin [baseDir, "packages", jsLastSeg packageName, "package.json"]

/-- `getPackageInfo(packageName, fsApi, baseDir)`: `null` (here `none`)
exactly when the manifest file does not exist; otherwise `JSON.parse` runs
on the file contents and its exception (`.error`) propagates. -/
def getPackageInfo (parseJson : String → Except String PkgManifest) (fs : FsApi)
    (packageName baseDir : String) : Except String (Option PkgInfo) :=
  let p := manifestPath packageName baseDir
  if fs.existsSync p then
    (parseJson (fs.readFileSync p)).map
      (fun m => some { version := m.version, dirName := jsLastSeg packageName })
  else
    .ok none

/-! `parseInt(s, 10)`: skip leading whitespace, optional sign, then the
longest digit run; `NaN` (here `none`) when there is no digit. -/

def takeDigits (l : List Char) : List Char := l.takeWhile (fun c => c.isDigit)

def digitsToNat (l : List Char) : Nat := l.foldl (fun a c => a * 10 + (c.toNat - 48)) 0

def jsParseInt (s : String) : Option Int :=
  match s.toList.dropWhile isJsSpace with
  | '-' :: r => if takeDigits r = [] then none else some (-(digitsToNat (takeDigits r) : Int))
  | '+' :: r => if takeDigits r = [] then none else some ((digitsToNat (takeDigits r) : Int))
  | r => if takeDigits r = [] then none else some ((digitsToNat (takeDigits r) : Int))

/-- String interpolation of the computed major (`NaN` prints as `"NaN"`). -/
def majorToString : Option Int → String
  | some n => toString n
  | none => "NaN"

/-- One row of the version script's maintenance plan
(`branchPlan[pkgName] = { dirName, majorVersion, branchName }`). -/
structure MaintenancePlanEntry where
  pkgName : String
  dirName : String
  majorVersion : Option Int
  branchName : String
deriving DecidableEq, Repr

/-- `planMaintenanceBranches(fsApi, baseDir)` (part_003 lines 23–54):
derive the major-bump set, then for each package resolve the manifest,
skip (with a warning) when it is missing, and otherwise plan
`release/<dirName>_v<major>` with the major parsed from the leading
dot-separated version component.  A `JSON.parse` exception propagates.
The planned entry for one resolved package:
`currentMajor = parseInt(pkgInfo.version.split('.')[0], 10)` and
`branchName = release/<dirName>_v<currentMajor>`. -/
def plannedEntry (pkgName : String) (info : PkgInfo) : MaintenancePlanEntry :=
  ⟨pkgName, info.dirName, jsParseInt ((splitOnChar '.' info.version).headD ""),
   "release/" ++ info.dirName ++ "_v"
     ++ majorToString (jsParseInt ((splitOnChar '.' info.version).headD ""))⟩

/-- The invariant carried by every entry the planner emits. -/
def branchNameFormula (e : MaintenancePlanEntry) : Prop :=
  e.branchName = "release/" ++ e.dirName ++ "_v" ++ majorToString e.majorVersion

/-- The loop body of `planMaintenanceBranches` (part_003 lines 36–51). -/
def planStep (parseJson : String → Except String PkgManifest) (fs : FsApi)
    (baseDir : String) (acc : List MaintenancePlanEntry) (pkgName : String) :
    Except String (List MaintenancePlanEntry) := do
  let infoOpt ← getPackageInfo parseJson fs pkgName baseDir
  match infoOpt with
  | none => pure acc
  | some info => pure (acc ++ [plannedEntry pkgName info])

/-- `planMaintenanceBranches(fsApi, baseDir)` (part_003 lines 23–54). -/
def planMaintenanceBranches (parseJson : String → Except String PkgManifest)
    (fs : FsApi) (baseDir : String) : Except String (List MaintenancePlanEntry) :=
  if (getMajorBumpPackages fs baseDir).length = 0 then .ok []
  else (getMajorBumpPackages fs baseDir).foldlM (planStep parseJson fs baseDir) []

/-- One row of `VersionService.generateMaintenancePlan`
(`plan[packageName] = { branchName, version, dirName }`). -/
structure VsPlanEntry where
  pkgName : String
  branchName : String
  version : String
  dirName : String
deriving DecidableEq, Repr

/-- Loop body of `VersionService.generateMaintenancePlan`
(version.service.js lines 32–42): same resolution and skip logic as the
version script, but the branch name is `release/<dirName>@<version>` and
the entry stores the full version string. -/
def vsPlanStep (parseJson : String → Except String PkgManifest) (fs : FsApi)
    (baseDir : String) (acc : List VsPlanEntry) (packageName : String) :
    Except String (List VsPlanEntry) := do
  let infoOpt ← getPackageInfo parseJson fs packageName baseDir
  match infoOpt with
  | none => pure acc
  | some info =>
    pure (acc ++ [{ pkgName := packageName,
                    branchName := "release/" ++ info.dirName ++ "@" ++ info.version,
                    version := info.version, dirName := info.dirName }])

/-- `VersionService.generateMaintenancePlan(majorBumpPackages, baseDir)`
(version.service.js lines 29–45). -/
def generateMaintenancePlan (parseJson : String → Except String PkgManifest)
    (fs : FsApi) (majorBumpPackages : List String) (baseDir : String) :
    Except String (List VsPlanEntry) :=
  majorBumpPackages.foldlM (vsPlanStep parseJson fs baseDir) []

/-! ## ReleaseOrchestrator: `ReleaseService` (part_002)
The run is modelled as a trace of external events; console logging is
dropped.  `git.getChangedFiles` resolves to `world.changedFiles`; the plan
file is `world.planFile` (`none` = `existsSync` false, `some entries` =
the `JSON.parse`d object); `remoteBranches` is the `ls-remote` oracle. -/

/-- Observable events of a release run. -/
inductive Ev where
  | getChangedFiles
  | lsRemote (branch : String)
  | createBranch (branch : String) (fromRef : String)
  | pushBranch (branch : String)
  | execCmd (cmd : String)
  | planExistsCheck
  | planRead
deriving DecidableEq, Repr

def publishEv : Ev := Ev.execCmd "pnpm changeset publish"

/-- A branch-manipulating git event. -/
def Ev.isBranchOp : Ev → Bool
  | .lsRemote _ => true
  | .createBranch _ _ => true
  | .pushBranch _ => true
  | _ => false

/-- Environment variables read by `getReleaseContext` (`none` models an
unset variable). -/
structure ReleaseEnv where
  enableMultiRelease : Option String
  githubRefName : Option String

structure ReleaseCtx where
  isMultiRelease : Bool
  branchName : Option String
  isReleaseBranch : Bool
  isMainBranch : Bool
deriving DecidableEq, Repr

/-- `getReleaseContext(env)` (part_002 lines 75–87). -/
def getReleaseContext (env : ReleaseEnv) : ReleaseCtx :=
  { isMultiRelease := env.enableMultiRelease = some "true"
    branchName := env.githubRefName
    isReleaseBranch :=
      match env.githubRefName with
      | some b => jsStartsWith b "release/"
      | none => false
    isMainBranch := env.githubRefName = some "main" }

/-- One entry of the parsed plan object: the key and the `branchName`
field (the only field `planRelease` reads). -/
structure PlanEntry where
  pkgName : String
  branchName : String
deriving DecidableEq, Repr

/-- External world of a `ReleaseService` run. -/
structure ReleaseWorld where
  changedFiles : List String
  planFile : Option (List PlanEntry)
  remoteBranches : String → Bool

inductive Step where
  | logWarn (msg : String)
  | exec (cmd : String)
  | ensureMaintenanceBranch (branchName : String)
deriving DecidableEq, Repr

/-- `validatePreconditions(ctx)` (part_002 lines 89–111): the branch check
runs before any git call; otherwise the latest commit's changed files
decide whether this is a release event.  Returns the event trace and
`proceedWithRelease`. -/
def validatePreconditionsSvc (ctx : ReleaseCtx) (w : ReleaseWorld) :
    List Ev × Bool :=
  if !ctx.isMainBranch && !ctx.isReleaseBranch && ctx.isMultiRelease then
    ([], false)
  else
    ([Ev.getChangedFiles],
      w.changedFiles.any (fun f =>
        jsEndsWith f "package.json" || jsEndsWith f "CHANGELOG.md"))

/-- Whether the changed-file set constitutes a release event. -/
def relEvent (w : ReleaseWorld) : Bool :=
  w.changedFiles.any (fun f =>
    jsEndsWith f "package.json" || jsEndsWith f "CHANGELOG.md")

/-- `planRelease(ctx)` (part_002 lines 16–34): the plan file is checked
and, whenever it exists, read and parsed unconditionally; its entries turn
into ensure-maintenance-branch steps only on main in multi-release mode;
a publish step is always appended. -/
def planEvs (w : ReleaseWorld) : List Ev :=
  Ev.planExistsCheck ::
    (match w.planFile with
     | some _ => [Ev.planRead]
     | none => [])

def branchStepsOf (ctx : ReleaseCtx) (w : ReleaseWorld) : List Step :=
  if (w.planFile.getD []).length > 0 && ctx.isMultiRelease && ctx.isMainBranch then
    (w.planFile.getD []).map (fun e => Step.ensureMaintenanceBranch e.branchName)
  else []

def planReleaseSvc (ctx : ReleaseCtx) (w : ReleaseWorld) :
    List Ev × List Step :=
  (planEvs w, branchStepsOf ctx w ++ [Step.exec "pnpm changeset publish"])

/-- `ensureMaintenanceBranch(branchName)` (part_002 lines 60–73):
check the remote; only when absent, create from `HEAD~1` and push. -/
def ensureMaintenanceBranch (w : ReleaseWorld) (branchName : String) : List Ev :=
  if w.remoteBranches branchName then
    [Ev.lsRemote branchName]
  else
    [Ev.lsRemote branchName, Ev.createBranch branchName "HEAD~1",
     Ev.pushBranch branchName]

def executeStep (w : ReleaseWorld) : Step → List Ev
  | .logWarn _ => []
  | .exec cmd => [Ev.execCmd cmd]
  | .ensureMaintenanceBranch b => ensureMaintenanceBranch w b

/-- `executeSteps(steps)` (part_002 lines 36–58). -/
def executeSteps (w : ReleaseWorld) (steps : List Step) : List Ev :=
  (steps.map (executeStep w)).flatten

/-- `ReleaseService.run(env)` (part_002 lines 113–133): build the context,
validate preconditions, stop (returning normally) when not proceeding,
otherwise plan and execute.  Total: this code path raises nothing. -/
def runRelease (env : ReleaseEnv) (w : ReleaseWorld) : List Ev :=
  if !(validatePreconditionsSvc (getReleaseContext env) w).2 then
    (validatePreconditionsSvc (getReleaseContext env) w).1
  else
    (validatePreconditionsSvc (getReleaseContext env) w).1
      ++ (planReleaseSvc (getReleaseContext env) w).1
      ++ executeSteps w (planReleaseSvc (getReleaseContext env) w).2

/-! ## The legacy `release.js` entry point
Source: `.github/scripts/release/release.js` `validatePreconditions`
(lines 47–70): throws for any branch that is neither `main` nor
`release/*`, in both modes (message shortened, punctuation-free). -/

/-- `validatePreconditions(ctx, fsApi, baseDir)` of the legacy script;
`.ok (isMainBranch, isReleaseBranch)` on success. -/
def validatePreconditionsLegacy (branchName : Option String)
    (changesetDirExists : Bool) : Except String (Bool × Bool) :=
  let isMainBranch := branchName = some "main"
  let isReleaseBranch :=
    match branchName with
    | some b => jsStartsWith b "release/"
    | none => false
  if !isMainBranch && !isReleaseBranch then
    .error ("Invalid branch: " ++ branchName.getD "undefined")
  else if !changesetDirExists then
    .error ".changeset directory does not exist"
  else
    .ok (isMainBranch, isReleaseBranch)

/-! ## ChangesetRequirementGate
Source: `changeset-requirement.service.js` (carried inside
`changeset-requirement.service.test.js`, lines 436–576).  The git
collaborators are passed as `Except`-valued functions. -/

structure PRPull where
  title : Option String
  body : Option String
  headRef : Option String
  headSha : Option String
  baseRef : Option String
  baseSha : Option String
  labels : List String
deriving Repr

structure PRContext where
  eventName : String
  pullRequest : Option PRPull
  actor : String
deriving Repr

/-- `shouldSkipCheck(context, skipLabel)` (service lines 442–479). -/
def shouldSkipCheck (ctx : PRContext) (skipLabel : String) : Bool :=
  if ctx.eventName ≠ "pull_request" then true
  else
    let prTitle := (ctx.pullRequest.bind (fun p => p.title)).getD ""
    let prBody := (ctx.pullRequest.bind (fun p => p.body)).getD ""
    let headRef := (ctx.pullRequest.bind (fun p => p.headRef)).getD ""
    if jsStartsWith prTitle "Version Packages" || ctx.actor = "github-actions[bot]"
        || jsStartsWith headRef "changeset-release/" then true
    else if ctx.actor = "dependabot[bot]" || jsStartsWith headRef "dependabot/" then true
    else
      (jsIncludes prTitle skipLabel || jsIncludes prBody skipLabel)
        || ((ctx.pullRequest.map (fun p => p.labels)).getD []).any
             (fun l => l = skipLabel)

/-- The regex `^\.changeset\/.*\.md$` (over `/`-separated multi-segment
paths these two affix tests are equivalent to the regex, since any string
with the 11-character prefix and the 3-character suffix has length at
least 14). -/
def isChangesetPath (file : String) : Bool :=
  jsStartsWith file ".changeset/" && jsEndsWith file ".md"

/-- `findChangesetFiles(files)` (service lines 507–509). -/
def findChangesetFiles (files : List String) : List String :=
  files.filter isChangesetPath

/-- `service.fetchBranches(baseRef, headRef)` (lines 481–488): fetch the
base ref and, when truthy, the head ref. -/
def fetchBranchesOp (fetchBranch : String → Except String Unit)
    (baseRef headRef : String) : Except String Unit := do
  fetchBranch baseRef
  if headRef ≠ "" then fetchBranch headRef else pure ()

structure ValidateOptions where
  skipLabel : String
  fetchBranches : Bool
deriving Repr

structure ValidateResult where
  shouldSkip : Bool
  changedFiles : List String
  changesetFiles : List String
  hasChangeset : Bool
  skipReason : Option String
  error : Option String
deriving DecidableEq, Repr

def emptyValidateResult : ValidateResult :=
  { shouldSkip := false, changedFiles := [], changesetFiles := []
    hasChangeset := false, skipReason := none, error := none }

def ctxBaseRef (ctx : PRContext) : String :=
  (ctx.pullRequest.bind (fun p => p.baseRef)).getD "main"
def ctxHeadRef (ctx : PRContext) : String :=
  (ctx.pullRequest.bind (fun p => p.headRef)).getD ""
def ctxBaseSha (ctx : PRContext) : String :=
  (ctx.pullRequest.bind (fun p => p.baseSha)).getD ""
def ctxHeadSha (ctx : PRContext) : String :=
  (ctx.pullRequest.bind (fun p => p.headSha)).getD ""

/-- `validateChangeset(context, options)` (service lines 511–557).
The source invokes the async `this.fetchBranches(...)` WITHOUT `await`:
its outcome — including a rejection — never enters the function's control
flow, so it is computed here and discarded.  Only the synchronous
changed-file computation is inside the effective try/catch, whose failure
is surfaced as `result.error`.  The function always returns a result. -/
def validateChangeset (ctx : PRContext) (opts : ValidateOptions)
    (fetchBranch : String → Except String Unit)
    (getChanged : String → String → String → String → Except String (List String)) :
    ValidateResult :=
  if shouldSkipCheck ctx opts.skipLabel then
    { emptyValidateResult with
      shouldSkip := true
      skipReason := some "Skip condition met (not PR, bot, release, or skip label)" }
  else
    let _unawaitedFetch :=
      if opts.fetchBranches then
        some (fetchBranchesOp fetchBranch (ctxBaseRef ctx) (ctxHeadRef ctx))
      else none
    match getChanged (ctxBaseRef ctx) (ctxHeadRef ctx) (ctxBaseSha ctx) (ctxHeadSha ctx) with
    | .ok changed =>
      let cs := findChangesetFiles changed
      { emptyValidateResult with
        changedFiles := changed
        changesetFiles := cs
        hasChangeset := cs.length > 0 }
    | .error msg => { emptyValidateResult with error := some msg }

/-! ## Helper lemmas: the changeset scanner -/

theorem isPrefixOf_append_self (p b : List Char) : p.isPrefixOf (p ++ b) = true := by
  induction p with
  | nil => simp
  | cons c t ih => simp [ih]

theorem containsSeq_of_append (pat a b : List Char) :
    containsSeq pat (a ++ (pat ++ b)) = true := by
  induction a with
  | nil =>
    cases pat with
    | nil => cases b <;> simp [containsSeq]
    | cons c t => simp [containsSeq, isPrefixOf_append_self (c :: t) b]
  | cons c t ih => simp [containsSeq, ih]

theorem takeWhile_middle (p : Char → Bool) (n : List Char) (x : Char) (t : List Char)
    (hn : ∀ c ∈ n, p c = true) (hx : p x = false) :
    (n ++ x :: t).takeWhile p = n ∧ (n ++ x :: t).dropWhile p = x :: t := by
  induction n with
  | nil => simp [List.takeWhile_cons, List.dropWhile_cons, hx]
  | cons c m ih =>
    have hc : p c = true := hn c (by simp)
    have h2 := ih (fun d hd => hn d (by simp [hd]))
    simp [List.takeWhile_cons, List.dropWhile_cons, hc, h2.1, h2.2]

theorem wsColonWsMajor_canonical (post : List Char) :
    wsColonWsMajor (colonSpaceMajor ++ post) = true := by
  simp [wsColonWsMajor, colonSpaceMajor, List.dropWhile_cons, isJsSpace,
        isPrefixOf_append_self]

theorem quotedMajorAt_wellformed (n after : List Char) (hne : n ≠ [])
    (hq : '"' ∉ n) (hafter : wsColonWsMajor after = true) :
    quotedMajorAt ('"' :: (n ++ '"' :: after)) = some n := by
  obtain ⟨c, m, rfl⟩ := List.exists_cons_of_ne_nil hne
  have hmid := takeWhile_middle (fun d => d ≠ '"') (c :: m) '"' after
    (fun d hd => by
      simp only [decide_eq_true_eq]
      intro hdq
      exact hq (hdq ▸ hd))
    (by simp)
  simp only [quotedMajorAt]
  rw [if_pos trivial, hmid.1, hmid.2]
  simp [hafter]

theorem quotedMajorAt_none_of_head (c : Char) (t : List Char) (hc : c ≠ '"') :
    quotedMajorAt (c :: t) = none := by
  simp [quotedMajorAt, hc]

theorem firstQuotedMajor_wellformed (w n after : List Char) (hw : '"' ∉ w)
    (hne : n ≠ []) (hq : '"' ∉ n) (hafter : wsColonWsMajor after = true) :
    firstQuotedMajor (w ++ '"' :: (n ++ '"' :: after)) = some n := by
  induction w with
  | nil =>
    simp only [List.nil_append, firstQuotedMajor]
    rw [quotedMajorAt_wellformed n after hne hq hafter]
  | cons c t ih =>
    have hc : c ≠ '"' := fun h => hw (by simp [h])
    have ht : '"' ∉ t := fun h => hw (by simp [h])
    simp only [List.cons_append, firstQuotedMajor]
    rw [quotedMajorAt_none_of_head c _ hc]
    exact ih ht

theorem quotedKeyMajorHereB_wellformed (n after : List Char)
    (hafter : wsColonWsMajor after = true) :
    quotedKeyMajorHereB n ('"' :: (n ++ '"' :: after)) = true := by
  have h1 : ('"' :: (n ++ ['"'])).isPrefixOf ('"' :: (n ++ '"' :: after)) = true := by
    have h0 : ('"' :: (n ++ ['"'])) ++ after = '"' :: (n ++ '"' :: after) := by simp
    rw [← h0]
    exact isPrefixOf_append_self _ after
  have h2 : ('"' :: (n ++ '"' :: after)).drop (n.length + 2) = after := by
    have h0 : ('"' :: (n ++ '"' :: after)) = ('"' :: (n ++ ['"'])) ++ after := by simp
    have hlen : ('"' :: (n ++ ['"'])).length = n.length + 2 := by simp
    rw [h0, ← hlen, List.drop_left]
  simp [quotedKeyMajorHereB, h1, h2, hafter]

theorem quotedMajorAt_sound (l n : List Char) (h : quotedMajorAt l = some n) :
    quotedKeyMajorHereB n l = true := by
  match l with
  | [] => simp [quotedMajorAt] at h
  | c :: rest =>
    by_cases hc : c = '"'
    · subst hc
      simp only [quotedMajorAt] at h
      rw [if_pos trivial] at h
      split at h
      · exact absurd h (by simp)
      · next c2 m after heq1 heq2 =>
        split at h
        · next hws =>
          injection h with h2
          have hsplit := List.takeWhile_append_dropWhile
            (p := fun d => decide (d ≠ '"')) (l := rest)
          rw [heq1, heq2] at hsplit
          rw [← hsplit, ← h2]
          exact quotedKeyMajorHereB_wellformed (c2 :: m) after hws
        · exact absurd h (by simp)
      · exact absurd h (by simp)
    · rw [quotedMajorAt_none_of_head c rest hc] at h
      exact absurd h (by simp)

theorem firstQuotedMajor_sound (l n : List Char) (h : firstQuotedMajor l = some n) :
    specOccursB n l = true := by
  induction l with
  | nil => simp [firstQuotedMajor] at h
  | cons c t ih =>
    revert h
    simp only [firstQuotedMajor]
    cases hq : quotedMajorAt (c :: t) with
    | some m =>
      intro h
      injection h with h2
      subst h2
      simp [specOccursB, quotedMajorAt_sound _ _ hq]
    | none =>
      intro h
      simp [specOccursB, ih h]

theorem quotedMajorAt_no_quote (l : List Char) (h : '"' ∉ l) :
    quotedMajorAt l = none := by
  cases l with
  | nil => rfl
  | cons c t => exact quotedMajorAt_none_of_head c t (fun hc => h (by simp [hc]))

theorem firstQuotedMajor_no_quote (l : List Char) (h : '"' ∉ l) :
    firstQuotedMajor l = none := by
  induction l with
  | nil => rfl
  | cons c t ih =>
    simp only [firstQuotedMajor]
    rw [quotedMajorAt_no_quote (c :: t) h]
    exact ih (fun hc => h (by simp [hc]))

theorem lineContributes_no_quote (line : String) (h : '"' ∉ line.toList) :
    lineContributes line = none := by
  unfold lineContributes
  rw [firstQuotedMajor_no_quote line.toList h]
  split <;> rfl

theorem mem_addUnique (acc : List String) (m n : String) :
    n ∈ addUnique acc m ↔ n ∈ acc ∨ n = m := by
  unfold addUnique
  split
  · next hm =>
    constructor
    · exact fun h => Or.inl h
    · rintro (h | rfl)
      · exact h
      · exact hm
  · simp

theorem mem_foldl_extractLine (lines : List String) (acc : List String) (n : String) :
    n ∈ lines.foldl extractLineFold acc ↔
      n ∈ acc ∨ ∃ line ∈ lines, lineContributes line = some n := by
  induction lines generalizing acc with
  | nil => simp
  | cons l t ih =>
    rw [List.foldl_cons, ih]
    cases h : lineContributes l with
    | none =>
      simp only [extractLineFold, h]
      constructor
      · rintro (ha | ⟨li, hli, hc⟩)
        · exact Or.inl ha
        · exact Or.inr ⟨li, by simp [hli], hc⟩
      · rintro (ha | ⟨li, hli, hc⟩)
        · exact Or.inl ha
        · rcases List.mem_cons.mp hli with rfl | hli2
          · rw [h] at hc; exact absurd hc (by simp)
          · exact Or.inr ⟨li, hli2, hc⟩
    | some m =>
      simp only [extractLineFold, h]
      rw [mem_addUnique]
      constructor
      · rintro ((ha | rfl) | ⟨li, hli, hc⟩)
        · exact Or.inl ha
        · exact Or.inr ⟨l, by simp, h⟩
        · exact Or.inr ⟨li, by simp [hli], hc⟩
      · rintro (ha | ⟨li, hli, hc⟩)
        · exact Or.inl (Or.inl ha)
        · rcases List.mem_cons.mp hli with rfl | hli2
          · rw [h] at hc
            injection hc with h2
            exact Or.inl (Or.inr h2.symm)
          · exact Or.inr ⟨li, hli2, hc⟩

theorem mem_extract (files : List ChangesetFile) (n : String) :
    n ∈ extractMajorBumpPackagesFromChangesets files ↔
      ∃ f ∈ files, ∃ line ∈ jsLines f.content, lineContributes line = some n := by
  suffices h : ∀ acc, n ∈ files.foldl
      (fun acc f => (jsLines f.content).foldl extractLineFold acc) acc ↔
      n ∈ acc ∨ ∃ f ∈ files, ∃ line ∈ jsLines f.content, lineContributes line = some n by
    simpa [extractMajorBumpPackagesFromChangesets] using h []
  induction files with
  | nil => simp
  | cons f t ih =>
    intro acc
    rw [List.foldl_cons, ih, mem_foldl_extractLine]
    constructor
    · rintro ((ha | ⟨li, hli, hc⟩) | ⟨g, hg, li, hli, hc⟩)
      · exact Or.inl ha
      · exact Or.inr ⟨f, by simp, li, hli, hc⟩
      · exact Or.inr ⟨g, by simp [hg], li, hli, hc⟩
    · rintro (ha | ⟨g, hg, li, hli, hc⟩)
      · exact Or.inl (Or.inl ha)
      · rcases List.mem_cons.mp hg with rfl | hg2
        · exact Or.inl (Or.inr ⟨li, hli, hc⟩)
        · exact Or.inr ⟨g, hg2, li, hli, hc⟩

/-! ## Helper lemmas: the release orchestrator -/

theorem executeSteps_nil (w : ReleaseWorld) : executeSteps w [] = [] := rfl

theorem executeSteps_cons (w : ReleaseWorld) (s : Step) (t : List Step) :
    executeSteps w (s :: t) = executeStep w s ++ executeSteps w t := by
  simp [executeSteps]

theorem executeSteps_append (w : ReleaseWorld) (a b : List Step) :
    executeSteps w (a ++ b) = executeSteps w a ++ executeSteps w b := by
  simp [executeSteps]

theorem publish_not_in_ensure (w : ReleaseWorld) (b : String) :
    publishEv ∉ ensureMaintenanceBranch w b := by
  unfold ensureMaintenanceBranch publishEv
  split <;> simp

theorem publish_not_in_branchSteps (w : ReleaseWorld) (plan : List PlanEntry) :
    publishEv ∉
      executeSteps w (plan.map (fun e => Step.ensureMaintenanceBranch e.branchName)) := by
  induction plan with
  | nil => simp [executeSteps]
  | cons e t ih =>
    rw [List.map_cons, executeSteps_cons]
    intro h
    rcases List.mem_append.mp h with h1 | h2
    · exact publish_not_in_ensure w e.branchName h1
    · exact ih h2

theorem publish_not_in_branchStepsOf (ctx : ReleaseCtx) (w : ReleaseWorld) :
    publishEv ∉ executeSteps w (branchStepsOf ctx w) := by
  unfold branchStepsOf
  split
  · exact publish_not_in_branchSteps w _
  · simp [executeSteps]

theorem publish_not_in_validate (ctx : ReleaseCtx) (w : ReleaseWorld) :
    publishEv ∉ (validatePreconditionsSvc ctx w).1 := by
  unfold validatePreconditionsSvc
  split <;> simp [publishEv]

theorem publish_not_in_planEvs (w : ReleaseWorld) :
    publishEv ∉ planEvs w := by
  unfold planEvs
  cases w.planFile <;> simp [publishEv]

theorem executeSteps_publish (w : ReleaseWorld) :
    executeSteps w [Step.exec "pnpm changeset publish"] = [publishEv] := rfl

/-- Decomposition of every run trace: a publish-free part, optionally
followed by exactly one final publish. -/
theorem run_decomp (env : ReleaseEnv) (w : ReleaseWorld) :
    ∃ pre, publishEv ∉ pre ∧
      (runRelease env w = pre ∨ runRelease env w = pre ++ [publishEv]) := by
  by_cases hp : (validatePreconditionsSvc (getReleaseContext env) w).2 = true
  · refine ⟨(validatePreconditionsSvc (getReleaseContext env) w).1
        ++ planEvs w ++ executeSteps w (branchStepsOf (getReleaseContext env) w),
      ?_, Or.inr ?_⟩
    · intro h
      rcases List.mem_append.mp h with h1 | h2
      · rcases List.mem_append.mp h1 with h3 | h4
        · exact publish_not_in_validate _ _ h3
        · exact publish_not_in_planEvs _ h4
      · exact publish_not_in_branchStepsOf _ _ h2
    · unfold runRelease
      rw [hp]
      simp only [Bool.not_true, Bool.false_eq_true, if_false]
      unfold planReleaseSvc
      rw [executeSteps_append, executeSteps_publish]
      simp [List.append_assoc]
  · have hp2 : (validatePreconditionsSvc (getReleaseContext env) w).2 = false :=
      Bool.eq_false_iff.mpr hp
    refine ⟨(validatePreconditionsSvc (getReleaseContext env) w).1,
      publish_not_in_validate _ _, Or.inl ?_⟩
    unfold runRelease
    rw [hp2]
    simp

theorem validate_shortcircuit (ctx : ReleaseCtx) (w : ReleaseWorld)
    (h : (!ctx.isMainBranch && !ctx.isReleaseBranch && ctx.isMultiRelease) = true) :
    validatePreconditionsSvc ctx w = ([], false) := by
  unfold validatePreconditionsSvc
  rw [if_pos h]

theorem validate_not_shortcircuit (ctx : ReleaseCtx) (w : ReleaseWorld)
    (h : (!ctx.isMainBranch && !ctx.isReleaseBranch && ctx.isMultiRelease) = false) :
    validatePreconditionsSvc ctx w = ([Ev.getChangedFiles], relEvent w) := by
  unfold validatePreconditionsSvc relEvent
  rw [if_neg (by simp [h])]

theorem not_main_of_release (env : ReleaseEnv)
    (h : (getReleaseContext env).isReleaseBranch = true) :
    (getReleaseContext env).isMainBranch = false := by
  cases hb : env.githubRefName with
  | none => simp [getReleaseContext, hb] at h
  | some b =>
    simp only [getReleaseContext, hb] at h ⊢
    simp only [decide_eq_false_iff_not]
    intro hmain
    have hb2 : b = "main" := by injection hmain
    rw [hb2] at h
    exact absurd h (by decide)

/-! ## Helper lemmas: the maintenance planner -/

theorem except_bind_ok {α β ε : Type} (a : α) (f : α → Except ε β) :
    (Except.ok a >>= f) = f a := rfl

theorem except_bind_error {α β ε : Type} (e : ε) (f : α → Except ε β) :
    ((Except.error e : Except ε α) >>= f) = Except.error e := rfl

theorem plannedEntry_formula (pkg : String) (info : PkgInfo) :
    branchNameFormula (plannedEntry pkg info) := rfl

theorem planStep_eq_of_error (parseJson : String → Except String PkgManifest)
    (fs : FsApi) (baseDir : String) (acc : List MaintenancePlanEntry)
    (pkg msg : String)
    (hgi : getPackageInfo parseJson fs pkg baseDir = .error msg) :
    planStep parseJson fs baseDir acc pkg = .error msg := by
  unfold planStep
  rw [hgi, except_bind_error]

theorem planStep_eq_of_none (parseJson : String → Except String PkgManifest)
    (fs : FsApi) (baseDir : String) (acc : List MaintenancePlanEntry)
    (pkg : String)
    (hgi : getPackageInfo parseJson fs pkg baseDir = .ok none) :
    planStep parseJson fs baseDir acc pkg = .ok acc := by
  unfold planStep
  rw [hgi, except_bind_ok]
  rfl

theorem planStep_eq_of_some (parseJson : String → Except String PkgManifest)
    (fs : FsApi) (baseDir : String) (acc : List MaintenancePlanEntry)
    (pkg : String) (info : PkgInfo)
    (hgi : getPackageInfo parseJson fs pkg baseDir = .ok (some info)) :
    planStep parseJson fs baseDir acc pkg = .ok (acc ++ [plannedEntry pkg info]) := by
  unfold planStep
  rw [hgi, except_bind_ok]
  rfl

theorem planStep_formula (parseJson : String → Except String PkgManifest)
    (fs : FsApi) (baseDir : String) (acc out : List MaintenancePlanEntry)
    (pkg : String)
    (hacc : ∀ e ∈ acc, branchNameFormula e)
    (h : planStep parseJson fs baseDir acc pkg = .ok out) :
    ∀ e ∈ out, branchNameFormula e := by
  cases hgi : getPackageInfo parseJson fs pkg baseDir with
  | error msg =>
    rw [planStep_eq_of_error parseJson fs baseDir acc pkg msg hgi] at h
    exact (nomatch h)
  | ok infoOpt =>
    cases infoOpt with
    | none =>
      rw [planStep_eq_of_none parseJson fs baseDir acc pkg hgi] at h
      injection h with h2
      exact h2 ▸ hacc
    | some info =>
      rw [planStep_eq_of_some parseJson fs baseDir acc pkg info hgi] at h
      injection h with h2
      intro e he
      rw [← h2] at he
      rcases List.mem_append.mp he with h1 | h1
      · exact hacc e h1
      · rw [List.mem_singleton.mp h1]
        exact plannedEntry_formula pkg info

theorem planFold_formula (parseJson : String → Except String PkgManifest)
    (fs : FsApi) (baseDir : String) (majors : List String)
    (acc plan : List MaintenancePlanEntry)
    (hacc : ∀ e ∈ acc, branchNameFormula e)
    (h : majors.foldlM (planStep parseJson fs baseDir) acc = .ok plan) :
    ∀ e ∈ plan, branchNameFormula e := by
  induction majors generalizing acc with
  | nil =>
    have hout : Except.ok acc = Except.ok plan := h
    injection hout with h2
    exact h2 ▸ hacc
  | cons p t ih =>
    rw [List.foldlM_cons] at h
    cases hstep : planStep parseJson fs baseDir acc p with
    | error msg =>
      rw [hstep, except_bind_error] at h
      exact (nomatch h)
    | ok acc2 =>
      rw [hstep, except_bind_ok] at h
      exact ih acc2 (planStep_formula parseJson fs baseDir acc acc2 p hacc hstep) h

theorem planFold_error (parseJson : String → Except String PkgManifest)
    (fs : FsApi) (baseDir : String) (majors : List String)
    (acc : List MaintenancePlanEntry)
    (h : ∃ p ∈ majors, ∃ msg, getPackageInfo parseJson fs p baseDir = .error msg) :
    ∃ msg2, majors.foldlM (planStep parseJson fs baseDir) acc = .error msg2 := by
  induction majors generalizing acc with
  | nil => simp at h
  | cons q t ih =>
    rw [List.foldlM_cons]
    cases hgi : getPackageInfo parseJson fs q baseDir with
    | error msg =>
      refine ⟨msg, ?_⟩
      rw [planStep_eq_of_error parseJson fs baseDir acc q msg hgi, except_bind_error]
    | ok infoOpt =>
      rcases h with ⟨p, hp, msg, hpe⟩
      rcases List.mem_cons.mp hp with rfl | hpt
      · rw [hgi] at hpe; exact (nomatch hpe)
      · have hstep : ∃ acc2, planStep parseJson fs baseDir acc q = .ok acc2 := by
          cases infoOpt with
          | none => exact ⟨acc, planStep_eq_of_none parseJson fs baseDir acc q hgi⟩
          | some info =>
            exact ⟨acc ++ [plannedEntry q info],
              planStep_eq_of_some parseJson fs baseDir acc q info hgi⟩
        rcases hstep with ⟨acc2, hacc2⟩
        rw [hacc2, except_bind_ok]
        exact ih acc2 ⟨p, hpt, msg, hpe⟩

theorem validate_fst (ctx : ReleaseCtx) (w : ReleaseWorld) :
    (validatePreconditionsSvc ctx w).1 = []
      ∨ (validatePreconditionsSvc ctx w).1 = [Ev.getChangedFiles] := by
  unfold validatePreconditionsSvc
  split
  · exact Or.inl rfl
  · exact Or.inr rfl

theorem getChangedFilesSnd_fst (shell : String → Except String String) :
    (getChangedFilesSnd shell).1 = [gcfCmd1, gcfCmd2] := by
  unfold getChangedFilesSnd
  cases shell gcfCmd2 with
  | ok out => simp only []; split <;> rfl
  | error e => rfl

/-! ## Claim theorems -/

/-- C1 counterexample: the claim states that on a branch that is neither
`main` nor `release/*`, a single-release run is allowed (falls through
toward publish) and a multi-release run stops without raising an error.
The cited legacy entry point `release.js` `validatePreconditions`
(release/release.js lines 47–70) instead throws an Invalid-branch error
for branch `feature` — in both modes, since it does not consult the mode
at all. -/
theorem c1_counterexample :
    validatePreconditionsLegacy (some "feature") true
      = Except.error "Invalid branch: feature" := rfl

/-- C1 amended: for the `ReleaseService` orchestrator (part_002), whose
state machine the specification describes, the claim holds as stated: on a
branch that is neither `main` nor `release/*`, a multi-release run
produces an empty trace (zero git invocations, zero publishes, no error),
and a single-release run is not rejected — it reaches the changed-files
check and, when the latest changes are release changes, executes publish.
The legacy `release.js` iteration instead rejects any such branch with an
Invalid-branch error in both modes. -/
theorem c1_invalid_branch_amended (env : ReleaseEnv) (w : ReleaseWorld)
    (hmain : (getReleaseContext env).isMainBranch = false)
    (hrel : (getReleaseContext env).isReleaseBranch = false) :
    ((getReleaseContext env).isMultiRelease = true → runRelease env w = [])
    ∧ ((getReleaseContext env).isMultiRelease = false →
        Ev.getChangedFiles ∈ runRelease env w
          ∧ (relEvent w = true → publishEv ∈ runRelease env w))
    ∧ (∀ dirExists : Bool, ∃ msg,
        validatePreconditionsLegacy env.githubRefName dirExists
          = Except.error msg) := by
  refine ⟨?_, ?_, ?_⟩
  · intro hm
    have hval := validate_shortcircuit (getReleaseContext env) w
      (by simp [hmain, hrel, hm])
    unfold runRelease
    rw [hval]
    simp
  · intro hm
    have hval := validate_not_shortcircuit (getReleaseContext env) w
      (by simp [hm])
    constructor
    · unfold runRelease
      rw [hval]
      cases hre : relEvent w with
      | false => simp
      | true => simp
    · intro hre
      unfold runRelease
      rw [hval, hre]
      simp only [Bool.not_true, Bool.false_eq_true, if_false]
      unfold planReleaseSvc
      rw [executeSteps_append, executeSteps_publish]
      simp
  · intro dirExists
    simp only [getReleaseContext] at hmain hrel
    refine ⟨"Invalid branch: " ++ env.githubRefName.getD "undefined", ?_⟩
    unfold validatePreconditionsLegacy
    rw [if_pos]
    simp [hmain, hrel]

/-- C2 (confirmed): per plan entry, when the remote-branch check returns
true the ensure step issues only the `ls-remote` check — zero
`createBranch`, zero `pushBranch`; when it returns false it issues
exactly one `createBranch` from `HEAD~1` and then exactly one
`pushBranch`, in that order.  Moreover every run's trace is a publish-free
part optionally followed by exactly one final publish — so publish is
invoked at most once, never retried, and all branch operations happen
before it. -/
theorem c2_branch_idempotence_single_publish (env : ReleaseEnv)
    (w : ReleaseWorld) (b : String) :
    (w.remoteBranches b = true → ensureMaintenanceBranch w b = [Ev.lsRemote b])
    ∧ (w.remoteBranches b = false →
        ensureMaintenanceBranch w b
          = [Ev.lsRemote b, Ev.createBranch b "HEAD~1", Ev.pushBranch b])
    ∧ ∃ pre, publishEv ∉ pre
        ∧ (runRelease env w = pre ∨ runRelease env w = pre ++ [publishEv]) := by
  refine ⟨?_, ?_, run_decomp env w⟩
  · intro h
    unfold ensureMaintenanceBranch
    rw [h]
    simp
  · intro h
    unfold ensureMaintenanceBranch
    rw [h]
    simp

/-- C2 witness: concrete instantiation — with the branch present remotely,
the ensure step is exactly the existence check. -/
theorem c2_branch_idempotence_single_publish_witness :
    ensureMaintenanceBranch ⟨[], none, fun _ => true⟩ "release/pkg-one_v1"
      = [Ev.lsRemote "release/pkg-one_v1"] :=
  (c2_branch_idempotence_single_publish ⟨some "true", some "main"⟩
    ⟨[], none, fun _ => true⟩ "release/pkg-one_v1").1 rfl

/-- C3 (confirmed): in every run that reaches the release-event check
(i.e. is not short-circuited by the multi-release branch guard), if no
changed path ends in `package.json` or `CHANGELOG.md` the run stops right
after the changed-files inspection and publish is never invoked; if at
least one such path is present, publish is executed. -/
theorem c3_release_event_gate (env : ReleaseEnv) (w : ReleaseWorld)
    (hreach : (!(getReleaseContext env).isMainBranch
        && !(getReleaseContext env).isReleaseBranch
        && (getReleaseContext env).isMultiRelease) = false) :
    (relEvent w = false → runRelease env w = [Ev.getChangedFiles])
    ∧ (relEvent w = true → publishEv ∈ runRelease env w) := by
  have hval := validate_not_shortcircuit (getReleaseContext env) w hreach
  constructor
  · intro hre
    unfold runRelease
    rw [hval, hre]
    simp
  · intro hre
    unfold runRelease
    rw [hval, hre]
    simp only [Bool.not_true, Bool.false_eq_true, if_false]
    unfold planReleaseSvc
    rw [executeSteps_append, executeSteps_publish]
    simp

/-- C3 witness: a multi-release main-branch run with no release-relevant
changed files stops after the changed-files check. -/
theorem c3_release_event_gate_witness :
    runRelease ⟨some "true", some "main"⟩
        ⟨["src/feature.js", "docs/README.md"], none, fun _ => false⟩
      = [Ev.getChangedFiles] :=
  (c3_release_event_gate ⟨some "true", some "main"⟩
    ⟨["src/feature.js", "docs/README.md"], none, fun _ => false⟩
    (by decide)).1 (by decide)

/-- C1 witness: concrete instantiations of the amended claim — a
multi-release run on branch `feature` produces the empty trace. -/
theorem c1_invalid_branch_amended_witness :
    runRelease ⟨some "true", some "feature"⟩
        ⟨["packages/a/package.json"], none, fun _ => false⟩ = [] :=
  (c1_invalid_branch_amended ⟨some "true", some "feature"⟩
    ⟨["packages/a/package.json"], none, fun _ => false⟩
    (by decide) (by decide)).1 rfl

/-- C6 counterexample: the claim says the plan file is "never consulted
(never read)" in a release-branch or single-release run.  In the
`ReleaseService` orchestrator, a release event on the release branch
`release/some-feature` in multi-release mode with an existing non-empty
plan file produces a trace containing the plan-file read
(`fs.readFileSync` runs whenever the file exists, part_002 line 21) —
though no maintenance-branch steps follow. -/
theorem c6_counterexample :
    runRelease ⟨some "true", some "release/some-feature"⟩
        ⟨["packages/lib-one/CHANGELOG.md"],
         some [⟨"@scope/pkg", "release/pkg_v1"⟩], fun _ => false⟩
      = [Ev.getChangedFiles, Ev.planExistsCheck, Ev.planRead, publishEv]
    ∧ (getReleaseContext ⟨some "true", some "release/some-feature"⟩).isReleaseBranch
        = true := by
  exact ⟨rfl, rfl⟩

/-- C6 amended: for every release-branch or single-release run of the
`ReleaseService` orchestrator, the plan file's contents are never acted
on: the trace contains no branch operation (no ls-remote, no
createBranch, no pushBranch), and the run is identical for any two plan
contents — the only dependence on the plan file is the unconditional
existence check and read.  (The older `release.js` iteration in part_008
skips even the read in these modes.) -/
theorem c6_publish_only_amended (env : ReleaseEnv) (w : ReleaseWorld)
    (entries entries2 : List PlanEntry)
    (h : (getReleaseContext env).isReleaseBranch = true
        ∨ (getReleaseContext env).isMultiRelease = false) :
    ((runRelease env w).all (fun e => !e.isBranchOp) = true)
    ∧ runRelease env { w with planFile := some entries }
        = runRelease env { w with planFile := some entries2 } := by
  have hguard : ∀ w2 : ReleaseWorld, branchStepsOf (getReleaseContext env) w2 = [] := by
    intro w2
    have hcond : ((w2.planFile.getD []).length > 0
        && (getReleaseContext env).isMultiRelease
        && (getReleaseContext env).isMainBranch) = false := by
      rcases h with hr | hm
      · simp [not_main_of_release env hr]
      · simp [hm]
    unfold branchStepsOf
    rw [hcond]
    rfl
  constructor
  · by_cases hp : (validatePreconditionsSvc (getReleaseContext env) w).2 = true
    · unfold runRelease
      rw [hp]
      simp only [Bool.not_true, Bool.false_eq_true, if_false]
      unfold planReleaseSvc
      rw [hguard w]
      rw [show ([] : List Step) ++ [Step.exec "pnpm changeset publish"]
            = [Step.exec "pnpm changeset publish"] from rfl]
      rw [executeSteps_publish]
      rcases validate_fst (getReleaseContext env) w with hv | hv <;>
        rw [hv] <;> cases hpf : w.planFile <;>
          simp [planEvs, hpf, Ev.isBranchOp, publishEv]
    · have hp2 : (validatePreconditionsSvc (getReleaseContext env) w).2 = false :=
        Bool.eq_false_iff.mpr hp
      unfold runRelease
      rw [hp2]
      simp only [Bool.not_false, if_true]
      rcases validate_fst (getReleaseContext env) w with hv | hv <;>
        rw [hv] <;> simp [Ev.isBranchOp]
  · have hv : ∀ pf, validatePreconditionsSvc (getReleaseContext env)
        { w with planFile := pf } = validatePreconditionsSvc (getReleaseContext env) w := by
      intro pf
      unfold validatePreconditionsSvc
      rfl
    unfold runRelease planReleaseSvc
    rw [hv (some entries), hv (some entries2), hguard _, hguard _]
    by_cases hp : (validatePreconditionsSvc (getReleaseContext env) w).2 = true
    · rw [hp]
      simp [planEvs, executeSteps, executeStep]
    · have hp2 : (validatePreconditionsSvc (getReleaseContext env) w).2 = false :=
        Bool.eq_false_iff.mpr hp
      rw [hp2]
      simp

/-- C6 witness: concrete instantiation of the amended claim in
single-release mode with a non-empty plan on disk. -/
theorem c6_publish_only_amended_witness :
    runRelease ⟨some "false", some "main"⟩
        ⟨["packages/a/package.json"],
         some [⟨"@scope/pkg", "release/pkg_v1"⟩], fun _ => false⟩
      = runRelease ⟨some "false", some "main"⟩
        ⟨["packages/a/package.json"],
         some [⟨"@scope/other", "release/other_v3"⟩], fun _ => false⟩ :=
  (c6_publish_only_amended ⟨some "false", some "main"⟩
    ⟨["packages/a/package.json"], some [⟨"x", "y"⟩], fun _ => false⟩
    [⟨"@scope/pkg", "release/pkg_v1"⟩] [⟨"@scope/other", "release/other_v3"⟩]
    (Or.inr (by decide))).2

/-- C4 counterexample: the claim states the planner's branch name is
`release/<dirName>_v<majorVersion>`.  The cited
`VersionService.generateMaintenancePlan` instead produces
`release/<dirName>@<fullVersion>` (and stores the full version string,
no `majorVersion` field): for `@scope/pkg-one` at version `2.5.0` it
yields `release/pkg-one@2.5.0`, not `release/pkg-one_v2`. -/
theorem c4_counterexample :
    generateMaintenancePlan
        (fun s => if s = "MANIFEST" then Except.ok ⟨"2.5.0"⟩ else Except.error "bad")
        ⟨fun p => p = "repo/packages/pkg-one/package.json",
         fun _ => [], fun _ => "MANIFEST"⟩
        ["@scope/pkg-one"] "repo"
      = Except.ok [⟨"@scope/pkg-one", "release/pkg-one@2.5.0", "2.5.0", "pkg-one"⟩]
    ∧ ("release/pkg-one@2.5.0" : String) ≠ "release/pkg-one_v2" := by
  exact ⟨rfl, by decide⟩

/-- C4 amended: the version-script planner `planMaintenanceBranches`
satisfies the claim: every entry of every successful plan has
`branchName = release/<dirName>_v<majorVersion>` with the major parsed
from the leading dot-separated component of the resolved version, and —
the planner being a pure function of the pending descriptors and on-disk
versions — the plan is deterministic and idempotent.  Concretely, a
pending major changeset for `@scope/pkg-one` at version `2.5.0` plans
`release/pkg-one_v2` with `majorVersion = 2`.  The
`VersionService.generateMaintenancePlan` iteration instead emits
`release/<dirName>@<fullVersion>`. -/
theorem c4_branch_name_amended :
    (∀ (parseJson : String → Except String PkgManifest) (fs : FsApi)
       (baseDir : String) (plan : List MaintenancePlanEntry)
       (e : MaintenancePlanEntry),
       planMaintenanceBranches parseJson fs baseDir = Except.ok plan → e ∈ plan →
       e.branchName = "release/" ++ e.dirName ++ "_v" ++ majorToString e.majorVersion)
    ∧ planMaintenanceBranches
        (fun s => if s = "MANIFEST" then Except.ok ⟨"2.5.0"⟩ else Except.error "bad")
        ⟨fun p => p = "repo/.changeset" || p = "repo/packages/pkg-one/package.json",
         fun _ => ["major-bump.md", "README.md"],
         fun p => if p = "repo/.changeset/major-bump.md"
                  then "---\n\"@scope/pkg-one\": major\n---" else "MANIFEST"⟩
        "repo"
      = Except.ok [⟨"@scope/pkg-one", "pkg-one", some 2, "release/pkg-one_v2"⟩] := by
  constructor
  · intro parseJson fs baseDir plan e hok he
    unfold planMaintenanceBranches at hok
    split at hok
    · injection hok with h2
      rw [← h2] at he
      exact absurd he (by simp)
    · exact planFold_formula parseJson fs baseDir _ [] plan (by simp) hok e he
  · rfl

/-- C4 witness: the branch-name formula instantiated at the concretely
planned entry. -/
theorem c4_branch_name_amended_witness :
    ("release/pkg-one_v2" : String)
      = "release/" ++ "pkg-one" ++ "_v" ++ majorToString (some 2) :=
  c4_branch_name_amended.1
    (fun s => if s = "MANIFEST" then Except.ok ⟨"2.5.0"⟩ else Except.error "bad")
    ⟨fun p => p = "repo/.changeset" || p = "repo/packages/pkg-one/package.json",
     fun _ => ["major-bump.md", "README.md"],
     fun p => if p = "repo/.changeset/major-bump.md"
              then "---\n\"@scope/pkg-one\": major\n---" else "MANIFEST"⟩
    "repo" [⟨"@scope/pkg-one", "pkg-one", some 2, "release/pkg-one_v2"⟩]
    ⟨"@scope/pkg-one", "pkg-one", some 2, "release/pkg-one_v2"⟩
    c4_branch_name_amended.2 (by simp)

/-- C10 (confirmed): `getPackageInfo` returns `null` (`none`) exactly when
the package manifest file does not exist; when the manifest exists but
`JSON.parse` raises, the exception propagates out of `getPackageInfo`,
and if any major-bump package has such a malformed manifest the whole
`planMaintenanceBranches` computation aborts with that exception — the
documented soft-skip covers only the missing-file case. -/
theorem c10_missing_vs_malformed (parseJson : String → Except String PkgManifest)
    (fs : FsApi) (pkgName baseDir : String) :
    (getPackageInfo parseJson fs pkgName baseDir = Except.ok none ↔
       fs.existsSync (manifestPath pkgName baseDir) = false)
    ∧ (∀ msg, fs.existsSync (manifestPath pkgName baseDir) = true →
        parseJson (fs.readFileSync (manifestPath pkgName baseDir)) = Except.error msg →
        getPackageInfo parseJson fs pkgName baseDir = Except.error msg)
    ∧ ((∃ p ∈ getMajorBumpPackages fs baseDir, ∃ msg,
          getPackageInfo parseJson fs p baseDir = Except.error msg) →
        ∃ msg2, planMaintenanceBranches parseJson fs baseDir = Except.error msg2) := by
  refine ⟨?_, ?_, ?_⟩
  · unfold getPackageInfo
    cases hex : fs.existsSync (manifestPath pkgName baseDir) with
    | true =>
      simp only [hex, if_true]
      cases parseJson (fs.readFileSync (manifestPath pkgName baseDir)) <;>
        simp [Except.map]
    | false => simp [hex]
  · intro msg hex hparse
    unfold getPackageInfo
    simp only [hex, if_true]
    rw [hparse]
    rfl
  · intro hex
    unfold planMaintenanceBranches
    split
    · next hlen =>
      rcases hex with ⟨p, hp, _⟩
      rw [List.length_eq_zero] at hlen
      rw [hlen] at hp
      exact absurd hp (by simp)
    · exact planFold_error parseJson fs baseDir _ [] hex

/-- C10 witness: with the manifest present but malformed, the planning
run for a pending major bump aborts with the parse error. -/
theorem c10_missing_vs_malformed_witness :
    ∃ msg2, planMaintenanceBranches
        (fun _ => Except.error "Unexpected token in JSON")
        ⟨fun _ => true,
         fun _ => ["major-bump.md"],
         fun _ => "---\n\"@scope/pkg-one\": major\n---"⟩
        "repo"
      = Except.error msg2 :=
  (c10_missing_vs_malformed
    (fun _ => Except.error "Unexpected token in JSON")
    ⟨fun _ => true, fun _ => ["major-bump.md"],
     fun _ => "---\n\"@scope/pkg-one\": major\n---"⟩
    "@scope/pkg-one" "repo").2.2
    ⟨"@scope/pkg-one", by decide, "Unexpected token in JSON", rfl⟩

/-- C5 counterexample: the claim says the extractor returns exactly the
set of double-quoted identifiers on `": major"` lines.  On a single line
carrying two such keys, `"pkg-a": major, "pkg-b": major`, the regex
`match` (no global flag) captures only the first key: `pkg-b` also occurs
as a double-quoted key followed by `: major` on that line, yet only
`pkg-a` is returned. -/
theorem c5_counterexample :
    extractMajorBumpPackagesFromChangesets
        [⟨"two.md", "\"pkg-a\": major, \"pkg-b\": major"⟩]
      = ["pkg-a"]
    ∧ specOccursB "pkg-b".toList "\"pkg-a\": major, \"pkg-b\": major".toList = true
    ∧ "pkg-b" ∉ extractMajorBumpPackagesFromChangesets
        [⟨"two.md", "\"pkg-a\": major, \"pkg-b\": major"⟩] := by
  exact ⟨rfl, rfl, by decide⟩

/-- C5 amended: (i) soundness — every returned identifier occurs in some
line as a double-quoted key followed by optional whitespace, a colon,
optional whitespace and `major`, on a line that also contains the literal
substring `": major"`; (ii) completeness for single-key lines — a line
consisting of a quote-free prefix, the double-quoted key and the literal
`": major"` (anything after) contributes its key; (iii) the spec's own
example: a double-quoted major line is extracted while single-quoted and
minor lines contribute nothing.  Per line only the first regex match
counts, and lines lacking the exact substring `": major"` are skipped. -/
theorem c5_extractor_amended :
    (∀ (files : List ChangesetFile) (n : String),
        n ∈ extractMajorBumpPackagesFromChangesets files →
        ∃ f ∈ files, ∃ line ∈ jsLines f.content,
          specOccursB n.toList line.toList = true
            ∧ containsSeq colonSpaceMajor line.toList = true)
    ∧ (∀ (files : List ChangesetFile) (f : ChangesetFile) (w n post : List Char),
        f ∈ files →
        String.mk (w ++ '"' :: (n ++ '"' :: (colonSpaceMajor ++ post)))
          ∈ jsLines f.content →
        '"' ∉ w → n ≠ [] → '"' ∉ n →
        String.mk n ∈ extractMajorBumpPackagesFromChangesets files)
    ∧ extractMajorBumpPackagesFromChangesets
        [⟨"a.md", "---\n\"@scope/pkg-one\": major\n---"⟩,
         ⟨"b.md", "\x27@scope/pkg-two\x27: major"⟩,
         ⟨"c.md", "\"@scope/pkg-three\": minor"⟩]
      = ["@scope/pkg-one"] := by
  refine ⟨?_, ?_, rfl⟩
  · intro files n hn
    rcases (mem_extract files n).mp hn with ⟨f, hf, line, hline, hc⟩
    refine ⟨f, hf, line, hline, ?_, ?_⟩
    · unfold lineContributes at hc
      split at hc
      · cases hfq : firstQuotedMajor line.toList with
        | none => rw [hfq] at hc; exact (nomatch hc)
        | some m =>
          rw [hfq] at hc
          have hmn : String.mk m = n := by
            simpa using hc
          have hocc := firstQuotedMajor_sound line.toList m hfq
          rw [← hmn]
          exact hocc
      · exact (nomatch hc)
    · unfold lineContributes at hc
      split at hc
      · next hguard => exact hguard
      · exact (nomatch hc)
  · intro files f w n post hf hline hw hne hq
    apply (mem_extract files (String.mk n)).mpr
    refine ⟨f, hf, _, hline, ?_⟩
    unfold lineContributes
    have hguard : containsSeq colonSpaceMajor
        (String.mk (w ++ '"' :: (n ++ '"' :: (colonSpaceMajor ++ post)))).toList
        = true := by
      have heq : w ++ '"' :: (n ++ '"' :: (colonSpaceMajor ++ post))
          = (w ++ '"' :: (n ++ ['"'])) ++ (colonSpaceMajor ++ post) := by simp
      show containsSeq colonSpaceMajor
        (w ++ '"' :: (n ++ '"' :: (colonSpaceMajor ++ post))) = true
      rw [heq]
      exact containsSeq_of_append colonSpaceMajor _ post
    rw [if_pos hguard]
    show (firstQuotedMajor (w ++ '"' :: (n ++ '"' :: (colonSpaceMajor ++ post)))).map
        (fun l => String.mk l) = some (String.mk n)
    rw [firstQuotedMajor_wellformed w n (colonSpaceMajor ++ post) hw hne hq
      (wsColonWsMajor_canonical post)]
    rfl

/-- C5 witness: the completeness part instantiated on the line
`"pkg": major`. -/
theorem c5_extractor_amended_witness :
    ("pkg" : String) ∈ extractMajorBumpPackagesFromChangesets
      [⟨"m.md", "\"pkg\": major"⟩] := by
  have h := c5_extractor_amended.2.1 [⟨"m.md", "\"pkg\": major"⟩]
    ⟨"m.md", "\"pkg\": major"⟩ [] "pkg".toList [] (by simp) (by decide)
    (by simp) (by decide) (by decide)
  exact h

/-- C7 counterexample: the claim says the fallback to the second diff
strategy happens if and only if the first raises.  With a shell where the
first strategy succeeds with empty stdout and the second succeeds with
a file, both commands are attempted (a fallback without a raise). -/
theorem c7_counterexample :
    (getChangedFiles (fun c => if c = gcfCmd1
        then Except.ok "" else Except.ok "a.txt")).1
      = [gcfCmd1, gcfCmd2]
    ∧ (fun c => if c = gcfCmd1 then Except.ok "" else Except.ok "a.txt") gcfCmd1
        = (Except.ok "" : Except String String)
    ∧ (getChangedFiles (fun c => if c = gcfCmd1
        then Except.ok "" else Except.ok "a.txt")).2
      = ["a.txt"] := by
  refine ⟨rfl, ?_, rfl⟩
  simp

/-- C7 amended: `getChangedFiles` returns the first strategy's result
exactly when it succeeds with at least one non-empty output line; it
falls back to the second strategy when the first raises OR succeeds with
no non-empty lines; and when both strategies raise, the result is the
empty sequence — the function is total, so no exception escapes. -/
theorem c7_fallback_amended (shell : String → Except String String) :
    (∀ out, shell gcfCmd1 = Except.ok out → nonemptyLines out ≠ [] →
        getChangedFiles shell = ([gcfCmd1], nonemptyLines out))
    ∧ (∀ out, shell gcfCmd1 = Except.ok out → nonemptyLines out = [] →
        (getChangedFiles shell).1 = [gcfCmd1, gcfCmd2])
    ∧ (∀ e, shell gcfCmd1 = Except.error e →
        (getChangedFiles shell).1 = [gcfCmd1, gcfCmd2])
    ∧ (∀ e1 e2, shell gcfCmd1 = Except.error e1 → shell gcfCmd2 = Except.error e2 →
        getChangedFiles shell = ([gcfCmd1, gcfCmd2], [])) := by
  refine ⟨?_, ?_, ?_, ?_⟩
  · intro out hout hne
    unfold getChangedFiles
    rw [hout]
    simp [List.length_pos, hne]
  · intro out hout hemp
    unfold getChangedFiles
    rw [hout]
    simp only [hemp]
    rw [if_neg (by simp)]
    exact getChangedFilesSnd_fst shell
  · intro e he
    unfold getChangedFiles
    rw [he]
    exact getChangedFilesSnd_fst shell
  · intro e1 e2 h1 h2
    unfold getChangedFiles
    rw [h1]
    unfold getChangedFilesSnd
    rw [h2]

/-- C7 witness: with both strategies raising, the result is the empty
sequence after attempting both commands. -/
theorem c7_fallback_amended_witness :
    getChangedFiles (fun _ => Except.error "fatal: bad revision")
      = ([gcfCmd1, gcfCmd2], []) :=
  (c7_fallback_amended (fun _ => Except.error "fatal: bad revision")).2.2.2
    "fatal: bad revision" "fatal: bad revision" rfl rfl

/-- C8 (confirmed): `getChangedFilesBetweenRefs` consults its four diff
strategies in the stated order — remote-branch three-dot diff, SHA
three-dot diff, SHA two-dot diff, base-branch-to-HEAD diff — returns the
files of the first strategy whose output is non-blank after trimming, and
raises an error exactly when every strategy produces blank output
(strategies with missing refs or a raising shell produce blank output). -/
theorem c8_strategy_order (shell : String → Except String String)
    (baseRef headRef baseSha headSha : String) :
    (jsTrim (stratOut1 shell baseRef headRef) ≠ "" →
        getChangedFilesBetweenRefs shell baseRef headRef baseSha headSha
          = Except.ok (toFiles (stratOut1 shell baseRef headRef)))
    ∧ (jsTrim (stratOut1 shell baseRef headRef) = "" →
        jsTrim (stratOut2 shell baseSha headSha) ≠ "" →
        getChangedFilesBetweenRefs shell baseRef headRef baseSha headSha
          = Except.ok (toFiles (stratOut2 shell baseSha headSha)))
    ∧ (jsTrim (stratOut1 shell baseRef headRef) = "" →
        jsTrim (stratOut2 shell baseSha headSha) = "" →
        jsTrim (stratOut3 shell baseSha headSha) ≠ "" →
        getChangedFilesBetweenRefs shell baseRef headRef baseSha headSha
          = Except.ok (toFiles (stratOut3 shell baseSha headSha)))
    ∧ (jsTrim (stratOut1 shell baseRef headRef) = "" →
        jsTrim (stratOut2 shell baseSha headSha) = "" →
        jsTrim (stratOut3 shell baseSha headSha) = "" →
        jsTrim (stratOut4 shell baseRef) ≠ "" →
        getChangedFilesBetweenRefs shell baseRef headRef baseSha headSha
          = Except.ok (toFiles (stratOut4 shell baseRef)))
    ∧ (jsTrim (stratOut1 shell baseRef headRef) = "" →
        jsTrim (stratOut2 shell baseSha headSha) = "" →
        jsTrim (stratOut3 shell baseSha headSha) = "" →
        jsTrim (stratOut4 shell baseRef) = "" →
        getChangedFilesBetweenRefs shell baseRef headRef baseSha headSha
          = Except.error noStrategyMsg) := by
  refine ⟨?_, ?_, ?_, ?_, ?_⟩
  · intro h1
    simp [getChangedFilesBetweenRefs, List.find?, h1]
  · intro h1 h2
    simp [getChangedFilesBetweenRefs, List.find?, h1, h2]
  · intro h1 h2 h3
    simp [getChangedFilesBetweenRefs, List.find?, h1, h2, h3]
  · intro h1 h2 h3 h4
    simp [getChangedFilesBetweenRefs, List.find?, h1, h2, h3, h4]
  · intro h1 h2 h3 h4
    simp [getChangedFilesBetweenRefs, List.find?, h1, h2, h3, h4]

/-- C8 witness: with every strategy raising, the function raises the
all-strategies-exhausted error. -/
theorem c8_strategy_order_witness :
    getChangedFilesBetweenRefs (fun _ => Except.error "boom")
        "main" "feature" "abc123" "def456"
      = Except.error noStrategyMsg :=
  (c8_strategy_order (fun _ => Except.error "boom")
    "main" "feature" "abc123" "def456").2.2.2.2 rfl rfl rfl rfl

/-- C9 counterexample: the claim says any exception during the gate's git
operations (fetching refs, computing changed files) is surfaced in the
returned result's `error` field.  The source calls the async
`fetchBranches` without `await` (service line 541), so a fetch failure is
a dangling rejected promise: with a raising fetch and a succeeding
changed-files computation, the returned result has `error = null`. -/
theorem c9_counterexample :
    (validateChangeset
        ⟨"pull_request",
         some ⟨some "Fix bug", some "Regular PR description",
               some "feature-branch", some "def456", some "main", some "abc123", []⟩,
         "user"⟩
        ⟨"[skip changeset check]", true⟩
        (fun _ => Except.error "fetch failed")
        (fun _ _ _ _ => Except.ok ["src/index.js"])).error = none
    ∧ (fun (_ : String) => (Except.error "fetch failed" : Except String Unit)) "main"
        = Except.error "fetch failed"
    ∧ (validateChangeset
        ⟨"pull_request",
         some ⟨some "Fix bug", some "Regular PR description",
               some "feature-branch", some "def456", some "main", some "abc123", []⟩,
         "user"⟩
        ⟨"[skip changeset check]", true⟩
        (fun _ => Except.error "fetch failed")
        (fun _ _ _ _ => Except.ok ["src/index.js"])).shouldSkip = false := by
  exact ⟨rfl, rfl, rfl⟩

/-- C9 amended: `validateChangeset` always returns a result object (it is
a total function); exceptions raised by the synchronous changed-files
computation are caught and surfaced as `error`; but the branch-fetch step
is invoked without `await`, so the result is entirely independent of the
fetch behaviour — a fetch exception is neither caught into nor surfaced
in the result. -/
theorem c9_error_surfacing_amended (ctx : PRContext) (opts : ValidateOptions)
    (fetch fetch2 : String → Except String Unit)
    (getChanged : String → String → String → String → Except String (List String)) :
    (∀ msg, shouldSkipCheck ctx opts.skipLabel = false →
        getChanged (ctxBaseRef ctx) (ctxHeadRef ctx) (ctxBaseSha ctx) (ctxHeadSha ctx)
          = Except.error msg →
        (validateChangeset ctx opts fetch getChanged).error = some msg)
    ∧ validateChangeset ctx opts fetch getChanged
        = validateChangeset ctx opts fetch2 getChanged
    ∧ (∀ files, shouldSkipCheck ctx opts.skipLabel = false →
        getChanged (ctxBaseRef ctx) (ctxHeadRef ctx) (ctxBaseSha ctx) (ctxHeadSha ctx)
          = Except.ok files →
        (validateChangeset ctx opts fetch getChanged).error = none
          ∧ (validateChangeset ctx opts fetch getChanged).changedFiles = files) := by
  refine ⟨?_, ?_, ?_⟩
  · intro msg hskip hgc
    unfold validateChangeset
    rw [hskip]
    simp only [Bool.false_eq_true, if_false]
    rw [hgc]
  · rfl
  · intro files hskip hgc
    unfold validateChangeset
    rw [hskip]
    simp only [Bool.false_eq_true, if_false]
    rw [hgc]
    exact ⟨rfl, rfl⟩

/-- C9 witness: a raising changed-files computation is surfaced in the
result's error field. -/
theorem c9_error_surfacing_amended_witness :
    (validateChangeset
        ⟨"pull_request",
         some ⟨some "Fix bug", some "Regular PR description",
               some "feature-branch", some "def456", some "main", some "abc123", []⟩,
         "user"⟩
        ⟨"[skip changeset check]", false⟩
        (fun _ => Except.ok ())
        (fun _ _ _ _ => Except.error "Git command failed")).error
      = some "Git command failed" :=
  (c9_error_surfacing_amended
    ⟨"pull_request",
     some ⟨some "Fix bug", some "Regular PR description",
           some "feature-branch", some "def456", some "main", some "abc123", []⟩,
     "user"⟩
    ⟨"[skip changeset check]", false⟩
    (fun _ => Except.ok ()) (fun _ => Except.ok ())
    (fun _ _ _ _ => Except.error "Git command failed")).1
    "Git command failed" (by decide) rfl

end Spec2Proof
